import Mathlib

/-!
# Verification of the ipfs-vhosts-proxy vhost resolution and control-plane logic

Shallow embedding of `src/ipfs-vhosts-proxy.js`.  The JavaScript program keeps a
single global mapping `state.vhosts : name → CID` (modelled as an association
list preserving JS object key insertion order), resolves incoming requests to a
vhost either from the Host header or from the request path, rewrites the
outbound path or host accordingly, and exposes a small HTTP control plane.

Conventions used throughout:
* JS `null`/`undefined` results are modelled as `Option.none`.
* JS exceptions are modelled with `Except String`.
* JS string truthiness (`if (s)`) is `s ≠ ""` for strings that exist.
* The mutable global `state.vhosts` is threaded explicitly; where a handler
  reads the global more than once, each read gets its own parameter so that the
  interleavings discussed in the specification can be expressed.
-/

/-- JS `s.split(sep)[0]` for a one-character separator: the part of `s`
before the first occurrence of `sep` (`s.split` never returns an empty array,
so element 0 always exists). -/
def jsSplitHead (s : String) (sep : Char) : String :=
  String.mk (s.data.takeWhile (fun c => c != sep))

/-- Split a character list on a separator character (JS `s.split(sep)` for a
one-character separator). -/
def splitChar (sep : Char) : List Char → List (List Char)
  | [] => [[]]
  | c :: rest =>
    match splitChar sep rest with
    | [] => [[]]
    | h :: t => if c = sep then [] :: h :: t else (c :: h) :: t

/-- The `$`-patterns `String.prototype.replace` expands in the replacement
string: `$$` is a dollar sign, `$&` the matched substring, `` $` `` the part
before the match, `$\x27` the part after.  `$n` group references stay as-is:
a string pattern has no capture groups. -/
def expandRepl (repl matched before after : List Char) : List Char :=
  match repl with
  | '$' :: '$' :: r => '$' :: expandRepl r matched before after
  | '$' :: '&' :: r => matched ++ expandRepl r matched before after
  | '$' :: '\x60' :: r => before ++ expandRepl r matched before after
  | '$' :: '\x27' :: r => after ++ expandRepl r matched before after
  | c :: r => c :: expandRepl r matched before after
  | [] => []

/-- Replace the first occurrence of `pat` by the expanded `repl`; the string
is unchanged when `pat` does not occur.  `beforeRev` accumulates the scanned
prefix in reverse. -/
def replaceFirstAux (pat repl : List Char) : List Char → List Char → List Char
  | beforeRev, [] => beforeRev.reverse
  | beforeRev, c :: rest =>
    if pat.isPrefixOf (c :: rest) then
      beforeRev.reverse ++
        expandRepl repl pat beforeRev.reverse ((c :: rest).drop pat.length) ++
        (c :: rest).drop pat.length
    else replaceFirstAux pat repl (c :: beforeRev) rest

/-- JS `String.prototype.replace` with a *string* pattern: replaces only the
first occurrence of `pat`, expanding `$`-patterns in the replacement, and
returns the string unchanged when `pat` does not occur.  (`pat` is never
empty at the call sites modelled here.) -/
def jsReplaceFirst (s pat repl : String) : String :=
  String.mk (replaceFirstAux pat.data repl.data [] s.data)

/-- Decimal digits of a string read as a number (only applied to all-digit
strings). -/
def digitsToNat (s : String) : Nat :=
  s.data.foldl (fun a c => a * 10 + (c.toNat - 48)) 0

/-- One dotted-quad octet as accepted by the `is-ip` package's IPv4 pattern:
digits only, value 0–255, no leading zero. -/
def isV4Octet (s : String) : Bool :=
  s.length > 0 && s.data.all Char.isDigit &&
    (s.length == 1 || s.front != '0') && digitsToNat s ≤ 255

/-- IPv4 literal test of the `is-ip` package: exactly four valid octets
separated by dots. -/
def isIPv4 (s : String) : Bool :=
  match splitChar '.' s.data with
  | [a, b, c, d] =>
    isV4Octet (String.mk a) && isV4Octet (String.mk b) &&
      isV4Octet (String.mk c) && isV4Octet (String.mk d)
  | _ => false

/-- IPv6 literal test.  Every IPv6 textual form contains a colon, and the
program only ever applies `isIP` to strings from which everything at and after
the first colon has been split off, so any test that demands a colon and
hex/colon characters agrees with the `is-ip` package at every call site. -/
def isIPv6 (s : String) : Bool :=
  s.data.any (fun c => c == ':') &&
    s.data.all (fun c => c.isDigit || ('a' ≤ c && c ≤ 'f') || ('A' ≤ c && c ≤ 'F') || c == ':')

/-- The `is-ip` package's test used by the source: IPv4 or IPv6 literal. -/
def isIP (s : String) : Bool :=
  isIPv4 s || isIPv6 s

/-! ## The vhost mapping (`state.vhosts`) -/

/-- `state.vhosts`: a JS object mapping vhost names to CID strings, modelled as
an association list in key insertion order (JS objects enumerate string keys in
insertion order). -/
abbrev Vhosts := List (String × String)

/-- `Object.keys(state.vhosts)`. -/
def keysOf (vs : Vhosts) : List String :=
  vs.map Prod.fst

/-- `state.vhosts[k]` followed by a truthiness test (`if (cid)` / `if (!cid)`):
an absent key and an empty-string value are both falsy in JS. -/
def truthyLookup (vs : Vhosts) (k : String) : Option String :=
  match vs.lookup k with
  | some v => if v = "" then none else some v
  | none => none

/-- The object spread `{ ...state.vhosts, [name]: cid }` (source lines
317–320): an existing key keeps its position and gets the new value, a new key
is appended. -/
def upsert (vs : Vhosts) (name cid : String) : Vhosts :=
  if name ∈ keysOf vs then
    vs.map (fun p => if p.1 = name then (name, cid) else p)
  else
    vs ++ [(name, cid)]

/-- `const copy = { ...state.vhosts }; delete copy[name]` (source lines
326–330). -/
def removeKey (vs : Vhosts) (name : String) : Vhosts :=
  vs.filter (fun p => p.1 ≠ name)

/-- Source lines 23–27. -/
def NAME_DENY_LIST : List String :=
  ["api", "content", "localhost"]

/-! ## CID model

The program validates and converts CIDs purely through the external `cids`
npm library (`new CID(str)`, `.version`, `.multibaseName`, `.toV1()`,
`.toBaseEncodedString('base32')`); none of that parsing code is in `src/`.
Following the specification (§3, §4.1), a CID is "a well-formed
content-address (version, multibase prefix, multihash digest) — validated by
the external storage client's parser, not reimplemented here". -/

/-- Modelled from the spec: the parsed form a CID string takes inside the
external `cids` library — a version, a multibase name, and the underlying
content key (codec + multihash digest), which version conversion and
re-encoding preserve. -/
structure Cid where
  version : Nat
  multibaseName : String
  contentKey : String
deriving DecidableEq, Repr

/-- Base58btc alphabet used by version-0 CIDs. -/
def isBase58Char (c : Char) : Bool :=
  (('1' ≤ c && c ≤ '9') ||
   ('A' ≤ c && c ≤ 'H') || ('J' ≤ c && c ≤ 'N') || ('P' ≤ c && c ≤ 'Z') ||
   ('a' ≤ c && c ≤ 'k') || ('m' ≤ c && c ≤ 'z'))

/-- Lowercase base32 alphabet (RFC 4648, no padding) used by version-1
base32 CIDs. -/
def isBase32Char (c : Char) : Bool :=
  ('a' ≤ c && c ≤ 'z') || ('2' ≤ c && c ≤ '7')

/-- Modelled from the spec: `new CID(str)` of the external `cids` library (not
in `src/`).  A version-0 CID is a 46-character base58btc multihash starting
with "Qm"; a version-1 base32 CID carries the multibase prefix 'b' followed by
base32 payload.  Parse failure is `none` (the library throws; the source
catches). -/
def parseCID (s : String) : Option Cid :=
  if s.length = 46 && List.isPrefixOf "Qm".data s.data && s.data.all isBase58Char then
    some ⟨0, "base58btc", s⟩
  else if s.length > 1 && s.front = 'b' && (s.drop 1).data.all isBase32Char then
    some ⟨1, "base32", s.drop 1⟩
  else
    none

/-- `isValidCID` (source lines 287–294): `CID.isCID(new CID(str))` under
try/catch. -/
def isValidCID (s : String) : Bool :=
  (parseCID s).isSome

/-- Modelled from the spec (§4.1) and source lines 250–253: the subdomain-safe
canonical form of a parsed CID — returned unchanged when already version 1 and
base32-encoded, otherwise converted to version 1 and re-encoded in base32
(`cidObj.toV1().toBaseEncodedString('base32')`), which preserves the content
key. -/
def toSubdomainSafe (c : Cid) : Cid :=
  if c.version = 1 ∧ c.multibaseName = "base32" then c
  else { version := 1, multibaseName := "base32", contentKey := c.contentKey }

/-- The version-1 base32 CID that appears in the source's initial state
(line 31). -/
def exampleCidV1 : String :=
  "bafybeictjmxvlw7xuzubam2wuzjruwknbdmnprehzlliba4azjhan7f2fa"

/-- The version-0 CID that appears in the source's initial state (line 32). -/
def exampleCidV0 : String :=
  "QmUZLYaz4tPP61PBVRXAz8awzrPpauHkXRjseQu6TsKgrr"

/-! ## JS regular expressions, as used by `getCIDKeyFromPath`

`getCIDKeyFromPath` (source lines 197–205) interpolates each vhost name
unescaped into `new RegExp("^/" + key + "($|/)")` and tests the request path
with `String.prototype.match`.  The model below covers the constructs such a
pattern can contain: literal characters, escapes, `.`, `*`, `+`, `?`, `|`,
groups, `^`/`$` anchors, `\b`/`\B` boundaries and `[...]` character classes.
`new RegExp` throwing a `SyntaxError` (for example on an unbalanced group, an
out-of-order brace quantifier, or an invalid group form) is modelled as
`Except.error`.  Brace quantifiers, lazy quantifiers, non-capturing and named
groups, and lookarounds are covered; backreferences and exotic escapes are
parsed as their Annex-B-style literal fallbacks. -/

/-- One member of a character class. -/
inductive ClsItem where
  | single (c : Char)
  | range (lo hi : Char)
  | digit
  | ndigit
  | word
  | nword
  | space
  | nspace
deriving DecidableEq, Repr

/-- JS word character (`\w`). -/
def wordChar (c : Char) : Bool :=
  c.isAlphanum || c == '_'

/-- JS whitespace (`\s`), restricted to the ASCII members. -/
def spaceChar (c : Char) : Bool :=
  c == ' ' || c == '\t' || c == '\n' || c == '\r' || c == '\x0b' || c == '\x0c'

def clsItemMatch (i : ClsItem) (c : Char) : Bool :=
  match i with
  | .single a => c == a
  | .range lo hi => lo ≤ c && c ≤ hi
  | .digit => c.isDigit
  | .ndigit => !c.isDigit
  | .word => wordChar c
  | .nword => !wordChar c
  | .space => spaceChar c
  | .nspace => !spaceChar c

/-- Abstract syntax of the modelled regular-expression subset. -/
inductive RE where
  | eps
  | char (c : Char)
  | any
  | startA
  | endA
  | wordB
  | nwordB
  | cls (neg : Bool) (items : List ClsItem)
  | seq (a b : RE)
  | alt (a b : RE)
  | star (a : RE)
  | plus (a : RE)
  | opt (a : RE)
  | lazy (a : RE)
  | rep (a : RE) (lo : Nat) (hi : Option Nat)
  | lookAhead (neg : Bool) (a : RE)
  | lookBehind (neg : Bool) (a : RE)
deriving DecidableEq, Repr

/-- Right-nested sequence of a list of atoms (empty list is the empty match). -/
def mkSeq : List RE → RE
  | [] => .eps
  | [a] => a
  | a :: rest => .seq a (mkSeq rest)

/-- Right-nested alternation of a nonempty list of branches. -/
def mkAlt : List RE → RE
  | [] => .eps
  | [a] => a
  | a :: rest => .alt a (mkAlt rest)

/-- What kind of group a parser frame belongs to: the outermost pattern, a
capturing / non-capturing / named group (all match alike), or a lookaround. -/
inductive GKind where
  | top
  | plain
  | ahead (neg : Bool)
  | behind (neg : Bool)
deriving DecidableEq, Repr

/-- Parser state for one group: completed alternatives in order, the atoms of
the current alternative in reverse, and the kind of group being built. -/
structure PFrame where
  alts : List RE
  seqR : List RE
  kind : GKind
deriving Repr

/-- The regular expression denoted by a finished group body. -/
def frameRE (f : PFrame) : RE :=
  mkAlt (f.alts ++ [mkSeq f.seqR.reverse])

/-- The atom a closed group contributes to its parent: lookarounds wrap the
body in the corresponding assertion, other groups contribute the body. -/
def groupAtom (f : PFrame) : RE :=
  match f.kind with
  | .ahead neg => .lookAhead neg (frameRE f)
  | .behind neg => .lookBehind neg (frameRE f)
  | _ => frameRE f

/-- Whether a quantifier may follow this atom (JS rejects a quantifier after
an anchor, a boundary, or another quantifier with "nothing to repeat"). -/
def quantifiable : RE → Bool
  | .startA => false
  | .endA => false
  | .wordB => false
  | .nwordB => false
  | .star _ => false
  | .plus _ => false
  | .opt _ => false
  | .lazy _ => false
  | .rep _ _ _ => false
  | .lookBehind _ _ => false
  | _ => true

/-- Apply a quantifier to the last atom of the current alternative. -/
def stepQuant (wrap : RE → RE) (f : PFrame) : Except String PFrame :=
  match f.seqR with
  | [] => .error "SyntaxError: nothing to repeat"
  | a :: rest =>
    if quantifiable a then .ok { f with seqR := wrap a :: rest }
    else .error "SyntaxError: nothing to repeat"

/-- A `?` after an atom: on a quantified atom it is the lazy-match modifier
(accepted by JS; laziness changes which match is taken, not whether one
exists), otherwise it is the optional quantifier. -/
def stepOptQuant (f : PFrame) : Except String PFrame :=
  match f.seqR with
  | [] => .error "SyntaxError: nothing to repeat"
  | a :: rest =>
    match a with
    | .star b => .ok { f with seqR := .lazy (.star b) :: rest }
    | .plus b => .ok { f with seqR := .lazy (.plus b) :: rest }
    | .opt b => .ok { f with seqR := .lazy (.opt b) :: rest }
    | .rep b lo hi => .ok { f with seqR := .lazy (.rep b lo hi) :: rest }
    | a =>
      if quantifiable a then .ok { f with seqR := .opt a :: rest }
      else .error "SyntaxError: nothing to repeat"

/-- Apply a braced quantifier to the last atom of the current alternative
(JS throws "numbers out of order" for out-of-order bounds and "nothing to
repeat" when no quantifiable atom precedes). -/
def stepBrace (lo : Nat) (hi : Option Nat) (f : PFrame) : Except String PFrame :=
  if hi.getD lo < lo then
    .error "SyntaxError: numbers out of order in brace quantifier"
  else
    match f.seqR with
    | [] => .error "SyntaxError: nothing to repeat"
    | a :: rest =>
      if quantifiable a then .ok { f with seqR := .rep a lo hi :: rest }
      else .error "SyntaxError: nothing to repeat"

/-- Whether the characters after a `{` form a braced quantifier (or an
out-of-order one) of shape digits, optionally a comma and more digits, then a
closing brace.  Returns the bounds and the number of characters the form
occupies after the opening brace.  A `{` not followed by such a form is a
literal character (JS Annex B). -/
def braceQuantAt (l : List Char) : Option (Nat × Option Nat × Nat) :=
  let d1 := l.takeWhile Char.isDigit
  if d1.isEmpty then none
  else
    match l.drop d1.length with
    | '}' :: _ =>
      some (digitsToNat (String.mk d1), some (digitsToNat (String.mk d1)), d1.length + 1)
    | ',' :: r2 =>
      let d2 := r2.takeWhile Char.isDigit
      match r2.drop d2.length with
      | '}' :: _ =>
        some (digitsToNat (String.mk d1),
          if d2.isEmpty then none else some (digitsToNat (String.mk d2)),
          d1.length + 1 + d2.length + 1)
      | _ => none
    | _ => none

/-- First character of a capture group name (JS identifier start, without the
unicode-escape forms). -/
def identStartChar (c : Char) : Bool :=
  c.isAlpha || c == '_' || c == '$'

/-- Later character of a capture group name. -/
def identPartChar (c : Char) : Bool :=
  c.isAlphanum || c == '_' || c == '$'

/-- For the characters after `(?<` (when not a lookbehind): the length of a
valid capture group name followed by `>`, or `none` (JS throws "invalid
capture group name"). -/
def captureNameLen (l : List Char) : Option Nat :=
  match l with
  | c :: rest =>
    if identStartChar c then
      let tail := rest.takeWhile identPartChar
      match rest.drop tail.length with
      | '>' :: _ => some (1 + tail.length)
      | _ => none
    else none
  | [] => none

/-- The atom produced by a backslash escape outside a character class. -/
def escAtom (c : Char) : RE :=
  match c with
  | 'd' => .cls false [.digit]
  | 'D' => .cls false [.ndigit]
  | 'w' => .cls false [.word]
  | 'W' => .cls false [.nword]
  | 's' => .cls false [.space]
  | 'S' => .cls false [.nspace]
  | 'n' => .char '\n'
  | 't' => .char '\t'
  | 'r' => .char '\r'
  | 'f' => .char '\x0c'
  | 'v' => .char '\x0b'
  | '0' => .char '\x00'
  | 'b' => .wordB
  | 'B' => .nwordB
  | c => .char c

/-- The class member produced by a backslash escape inside a character class:
either a builtin class or a plain character ('\b' is backspace there). -/
def clsEsc (c : Char) : Sum ClsItem Char :=
  match c with
  | 'd' => .inl .digit
  | 'D' => .inl .ndigit
  | 'w' => .inl .word
  | 'W' => .inl .nword
  | 's' => .inl .space
  | 'S' => .inl .nspace
  | 'n' => .inr '\n'
  | 't' => .inr '\t'
  | 'r' => .inr '\r'
  | 'f' => .inr '\x0c'
  | 'v' => .inr '\x0b'
  | '0' => .inr '\x00'
  | 'b' => .inr '\x08'
  | c => .inr c

/-- In-progress character class: negation flag, committed members in reverse,
a pending candidate range start, and whether a `-` follows the pending
character. -/
structure ClsState where
  neg : Bool
  items : List ClsItem
  pending : Option Char
  dash : Bool
deriving Repr

/-- Commit the pending character (and a pending dash) as literal members. -/
def clsCommit (st : ClsState) : List ClsItem :=
  match st.pending, st.dash with
  | some p, true => .single '-' :: .single p :: st.items
  | some p, false => .single p :: st.items
  | none, true => .single '-' :: st.items
  | none, false => st.items

/-- Feed one resolved character into a character class in progress. -/
def clsStep (st : ClsState) (c : Char) : Except String ClsState :=
  match st.pending, st.dash with
  | some p, true =>
    if p ≤ c then
      .ok { st with items := .range p c :: st.items, pending := none, dash := false }
    else
      .error "SyntaxError: range out of order in character class"
  | some p, false =>
    .ok { st with items := .single p :: st.items, pending := some c }
  | none, _ =>
    .ok { st with items := clsCommit { st with pending := none }, pending := some c, dash := false }

/-- Parser mode: normal, after a backslash, just after `[` (or `[^`), inside a
class body, after a backslash inside a class body, or discarding the next
`n + 1` already-validated characters (the tail of a group-opening form or a
braced quantifier). -/
inductive PMode where
  | norm
  | esc
  | clsStart (neg : Bool)
  | clsBody (st : ClsState)
  | clsBodyEsc (st : ClsState)
  | skip (n : Nat)
deriving Repr

/-- One-character-at-a-time recursive-descent parser for the modelled
regular-expression subset; `stk` holds the frames of the open groups.  Mirrors
what `new RegExp(pattern)` accepts and throws. -/
def reParse : List Char → PMode → PFrame → List PFrame → Except String RE
  | [], .norm, cur, [] => .ok (frameRE cur)
  | [], .norm, _, _ :: _ => .error "SyntaxError: unterminated group"
  | [], .esc, _, _ => .error "SyntaxError: pattern may not end with a backslash"
  | [], .clsStart _, _, _ => .error "SyntaxError: unterminated character class"
  | [], .clsBody _, _, _ => .error "SyntaxError: unterminated character class"
  | [], .clsBodyEsc _, _, _ => .error "SyntaxError: unterminated character class"
  | [], .skip _, _, _ => .error "SyntaxError: unterminated group"
  | c :: rest, .norm, cur, stk =>
    if c = '(' then
      match rest with
      | '?' :: ':' :: _ => reParse rest (.skip 1) ⟨[], [], .plain⟩ (cur :: stk)
      | '?' :: '=' :: _ => reParse rest (.skip 1) ⟨[], [], .ahead false⟩ (cur :: stk)
      | '?' :: '!' :: _ => reParse rest (.skip 1) ⟨[], [], .ahead true⟩ (cur :: stk)
      | '?' :: '<' :: '=' :: _ => reParse rest (.skip 2) ⟨[], [], .behind false⟩ (cur :: stk)
      | '?' :: '<' :: '!' :: _ => reParse rest (.skip 2) ⟨[], [], .behind true⟩ (cur :: stk)
      | '?' :: '<' :: r =>
        match captureNameLen r with
        | some n => reParse rest (.skip (n + 2)) ⟨[], [], .plain⟩ (cur :: stk)
        | none => .error "SyntaxError: invalid capture group name"
      | '?' :: _ => .error "SyntaxError: invalid group"
      | _ => reParse rest .norm ⟨[], [], .plain⟩ (cur :: stk)
    else if c = ')' then
      match stk with
      | [] => .error "SyntaxError: unmatched close paren"
      | top :: stk' => reParse rest .norm { top with seqR := groupAtom cur :: top.seqR } stk'
    else if c = '|' then
      reParse rest .norm { cur with alts := cur.alts ++ [mkSeq cur.seqR.reverse], seqR := [] } stk
    else if c = '*' then
      match stepQuant .star cur with
      | .error e => .error e
      | .ok f => reParse rest .norm f stk
    else if c = '+' then
      match stepQuant .plus cur with
      | .error e => .error e
      | .ok f => reParse rest .norm f stk
    else if c = '?' then
      match stepOptQuant cur with
      | .error e => .error e
      | .ok f => reParse rest .norm f stk
    else if c = '.' then reParse rest .norm { cur with seqR := .any :: cur.seqR } stk
    else if c = '^' then reParse rest .norm { cur with seqR := .startA :: cur.seqR } stk
    else if c = '$' then reParse rest .norm { cur with seqR := .endA :: cur.seqR } stk
    else if c = '\\' then reParse rest .esc cur stk
    else if c = '[' then reParse rest (.clsStart false) cur stk
    else if c = '{' then
      match braceQuantAt rest with
      | none => reParse rest .norm { cur with seqR := .char '{' :: cur.seqR } stk
      | some (lo, hi, consumed) =>
        match stepBrace lo hi cur with
        | .error e => .error e
        | .ok f => reParse rest (.skip (consumed - 1)) f stk
    else reParse rest .norm { cur with seqR := .char c :: cur.seqR } stk
  | e :: rest, .esc, cur, stk =>
    reParse rest .norm { cur with seqR := escAtom e :: cur.seqR } stk
  | c :: rest, .clsStart neg, cur, stk =>
    match c with
    | '^' =>
      if neg then reParse rest (.clsBody ⟨true, [], some '^', false⟩) cur stk
      else reParse rest (.clsStart true) cur stk
    | ']' => reParse rest .norm { cur with seqR := .cls neg [] :: cur.seqR } stk
    | '\\' => reParse rest (.clsBodyEsc ⟨neg, [], none, false⟩) cur stk
    | c => reParse rest (.clsBody ⟨neg, [], some c, false⟩) cur stk
  | c :: rest, .clsBody st, cur, stk =>
    match c with
    | ']' =>
      reParse rest .norm { cur with seqR := .cls st.neg (clsCommit st).reverse :: cur.seqR } stk
    | '-' =>
      if st.pending.isSome && !st.dash then
        reParse rest (.clsBody { st with dash := true }) cur stk
      else
        match clsStep st '-' with
        | .error e => .error e
        | .ok st' => reParse rest (.clsBody st') cur stk
    | '\\' => reParse rest (.clsBodyEsc st) cur stk
    | c =>
      match clsStep st c with
      | .error e => .error e
      | .ok st' => reParse rest (.clsBody st') cur stk
  | e :: rest, .clsBodyEsc st, cur, stk =>
    match clsEsc e with
    | .inl b =>
      reParse rest (.clsBody { st with items := b :: clsCommit st, pending := none, dash := false }) cur stk
    | .inr ch =>
      match clsStep st ch with
      | .error e' => .error e'
      | .ok st' => reParse rest (.clsBody st') cur stk
  | _ :: rest, .skip n, cur, stk =>
    match n with
    | 0 => reParse rest .norm cur stk
    | m + 1 => reParse rest (.skip m) cur stk

/-- `new RegExp(pattern)`: parse or throw. -/
def compileRE (pat : String) : Except String RE :=
  reParse pat.data .norm ⟨[], [], .top⟩ []

/-- The pattern string built at source line 199: `` `^/${key}($|/)` ``. -/
def vhostRegexSrc (key : String) : String :=
  "^/" ++ key ++ "($|/)"

/-- Whether the character at `pos` (if any) is a word character. -/
def isWordAt (orig : List Char) (pos : Nat) : Bool :=
  match orig.get? pos with
  | some c => wordChar c
  | none => false

/-- Whether the character just before `pos` (if any) is a word character. -/
def prevWordAt (orig : List Char) (pos : Nat) : Bool :=
  match pos with
  | 0 => false
  | p + 1 => isWordAt orig p

/-- Size measure of a regular expression, used to compute a sufficient
matcher fuel. -/
def reSize : RE → Nat
  | .seq a b => reSize a + reSize b + 1
  | .alt a b => reSize a + reSize b + 1
  | .star a => reSize a + 1
  | .plus a => reSize a + 1
  | .opt a => reSize a + 1
  | .lazy a => reSize a + 1
  | .rep a lo hi =>
    (reSize a + 1) * (lo + (match hi with | some m => m | none => lo) + 2) + 1
  | .lookAhead _ a => reSize a + 2
  | .lookBehind _ a => reSize a + 2
  | _ => 1

/-- `n` mandatory copies of `a` followed by `tail`. -/
def repChain (a : RE) : Nat → RE → RE
  | 0, tail => tail
  | n + 1, tail => .seq a (repChain a n tail)

/-- Up to `n` further optional copies of `a` (greedy, nested). -/
def repOpts (a : RE) : Nat → RE
  | 0 => .eps
  | n + 1 => .opt (.seq a (repOpts a n))

/-- A braced quantifier unfolded into the core constructors: `lo` mandatory
copies, then either a star (no upper bound) or `hi - lo` optional copies. -/
def repDesugar (a : RE) (lo : Nat) (hi : Option Nat) : RE :=
  match hi with
  | none => repChain a lo (.star a)
  | some m => repChain a lo (repOpts a (m - lo))

/-- All positions at which `re` can stop after matching a portion of `orig`
starting at `pos` (a backtracking matcher enumerating every outcome; a match
exists at `pos` iff the list is nonempty).  `fuel` bounds the recursion depth;
character-level cases never consume fuel, a `star` iteration must advance to
be repeated (JS terminates a star loop on an empty-width iteration), so
`reFuel` below is always sufficient. -/
def matchEnds (orig : List Char) : Nat → RE → Nat → List Nat
  | _, .eps, pos => [pos]
  | _, .char c, pos =>
    match orig.get? pos with
    | some x => if x == c then [pos + 1] else []
    | none => []
  | _, .any, pos =>
    match orig.get? pos with
    | some x => if x == '\n' || x == '\r' then [] else [pos + 1]
    | none => []
  | _, .startA, pos => if pos = 0 then [pos] else []
  | _, .endA, pos => if pos = orig.length then [pos] else []
  | _, .wordB, pos => if prevWordAt orig pos != isWordAt orig pos then [pos] else []
  | _, .nwordB, pos => if prevWordAt orig pos == isWordAt orig pos then [pos] else []
  | _, .cls neg items, pos =>
    match orig.get? pos with
    | some x => if (items.any (clsItemMatch · x)) != neg then [pos + 1] else []
    | none => []
  | 0, .seq _ _, _ => []
  | f + 1, .seq a b, pos => (matchEnds orig f a pos).flatMap (matchEnds orig f b)
  | 0, .alt _ _, _ => []
  | f + 1, .alt a b, pos => matchEnds orig f a pos ++ matchEnds orig f b pos
  | 0, .star _, pos => [pos]
  | f + 1, .star a, pos =>
    pos :: ((matchEnds orig f a pos).filter (· > pos)).flatMap (matchEnds orig f (.star a))
  | 0, .plus _, _ => []
  | f + 1, .plus a, pos => (matchEnds orig f a pos).flatMap (matchEnds orig f (.star a))
  | 0, .opt _, pos => [pos]
  | f + 1, .opt a, pos => pos :: matchEnds orig f a pos
  | 0, .lazy _, _ => []
  | f + 1, .lazy a, pos => matchEnds orig f a pos
  | 0, .rep _ _ _, _ => []
  | f + 1, .rep a lo hi, pos => matchEnds orig f (repDesugar a lo hi) pos
  | 0, .lookAhead _ _, _ => []
  | f + 1, .lookAhead neg a, pos =>
    if (!(matchEnds orig f a pos).isEmpty) != neg then [pos] else []
  | 0, .lookBehind _ _, _ => []
  | f + 1, .lookBehind neg a, pos =>
    if ((List.range (pos + 1)).any (fun j => (matchEnds orig f a j).contains pos)) != neg
      then [pos] else []

/-- Fuel sufficient to evaluate `re` exactly on an input of length `n`: the
call depth is bounded by the pattern size per star-free descent and every
`star` unrolling advances the position. -/
def reFuel (re : RE) (n : Nat) : Nat :=
  (reSize re + 1) * (n + 2)

/-- JS `str.match(re) !== null` for a pattern compiled by `compileRE`: the
match may begin at any position of the string. -/
def reTest (re : RE) (s : String) : Bool :=
  (List.range (s.data.length + 1)).any
    (fun i => !(matchEnds s.data (reFuel re s.data.length) re i).isEmpty)

/-- The body of `getCIDKeyFromPath`'s `Object.keys(state.vhosts).find(...)`
(source lines 198–200): keys are tried in object order; building the `RegExp`
for a key throws out of `find` before later keys are consulted. -/
def findMatchingKey (pathName : String) : List String → Except String (Option String)
  | [] => .ok none
  | k :: ks =>
    match compileRE (vhostRegexSrc k) with
    | .error e => .error e
    | .ok re => if reTest re pathName then .ok (some k) else findMatchingKey pathName ks

/-- The `if (cidKey) ... return null` at source lines 201–204: the found key
is returned only if truthy; a found empty-string key (falsy in JS) and an
unsuccessful find both collapse to `null`. -/
def collapseFalsyKey (r : Option String) : Option String :=
  match r with
  | some k => if k = "" then none else some k
  | none => none

/-- `getCIDKeyFromPath` (source lines 197–205): first key of the snapshot
whose interpolated pattern matches the path, with the trailing truthiness
check collapsing a found empty-string key — reachable through the control
plane, which accepts the empty name — to `null`. -/
def getCIDKeyFromPath (vs : Vhosts) (pathName : String) : Except String (Option String) :=
  match findMatchingKey pathName (keysOf vs) with
  | .error e => .error e
  | .ok cidKey => .ok (collapseFalsyKey cidKey)

instance {α β : Type} [DecidableEq α] [DecidableEq β] : DecidableEq (Except α β) := fun x y =>
  match x, y with
  | .ok a, .ok b =>
    if h : a = b then isTrue (by rw [h]) else isFalse (fun hc => by cases hc; exact h rfl)
  | .error a, .error b =>
    if h : a = b then isTrue (by rw [h]) else isFalse (fun hc => by cases hc; exact h rfl)
  | .ok _, .error _ => isFalse (fun hc => by cases hc)
  | .error _, .ok _ => isFalse (fun hc => by cases hc)

/-! ## Host resolution and request rewriting -/

/-- `getCIDKeyFromHost` (source lines 207–221): split off the port, refuse IP
literals, take the leftmost dot-separated label, return it iff it is a key of
the snapshot. -/
def getCIDKeyFromHost (vs : Vhosts) (host : String) : Option String :=
  let hostName := jsSplitHead host ':'
  if isIP hostName then none
  else
    let subdomain := jsSplitHead hostName '.'
    if subdomain ∈ keysOf vs then some subdomain else none

/-- `replaceIPFSPath` (source lines 223–229): replace the first occurrence of
`/<cidKey>` in the path by `/ipfs/<cid>`; `null` when the looked-up CID is
falsy.  `cidKey` may itself be `null` (forwarded from a collapsed path
resolution); JS then coerces the property key *and* the template
interpolation to the string "null", so a vhost literally named "null" is
found and the path rewritten. -/
def replaceIPFSPath (vs : Vhosts) (pathName : String) (cidKey : Option String) : Option String :=
  let keyStr :=
    match cidKey with
    | some k => k
    | none => "null"
  match truthyLookup vs keyStr with
  | some cid => some (jsReplaceFirst pathName ("/" ++ keyStr) ("/ipfs/" ++ cid))
  | none => none

/-- `getIPFSPathFromCIDKey` (source lines 231–237): `/ipfs/<cid><pathName>`,
or `null` when the key's CID is missing from the snapshot consulted. -/
def getIPFSPathFromCIDKey (vs : Vhosts) (pathName k : String) : Option String :=
  match truthyLookup vs k with
  | some cid => some ("/ipfs/" ++ cid ++ pathName)
  | none => none

/-- `getIPFSPathFromPath` (source lines 239–242): resolve the path to a key,
then rewrite.  `resolveVs` is the snapshot read by `getCIDKeyFromPath` and
`rewriteVs` the one read by `replaceIPFSPath`; the source reads the global
`state.vhosts` at both places. -/
def getIPFSPathFromPath (resolveVs rewriteVs : Vhosts) (pathName : String) :
    Except String (Option String) :=
  match getCIDKeyFromPath resolveVs pathName with
  | .error e => .error e
  | .ok cidKey => .ok (replaceIPFSPath rewriteVs pathName cidKey)

/-- The `proxyReq` event handler (source lines 259–277), which decides the
final value of `proxyReq.path`.  `resolveVs` is the snapshot read by the
host-based resolution (line 261), `rewriteVs` the snapshot read by the rewrite
lookups (lines 267 and 272); both reads are of the global `state.vhosts` and
see the same snapshot in the single-threaded source, but the parameters let
the snapshot-replacement interleaving described in the specification be
expressed.  `subs` is `isTargetSubdomainsSupported(config.ipfs.gateway.address)`.
The result is the outbound path: `none` models JS `null` having been assigned
to `proxyReq.path`. -/
def proxyReqPathAfter (resolveVs rewriteVs : Vhosts) (host pathReq : String) (subs : Bool) :
    Except String (Option String) :=
  match getCIDKeyFromHost resolveVs host with
  | some cidKey =>
    if subs then .ok (some pathReq)
    else .ok (getIPFSPathFromCIDKey rewriteVs pathReq cidKey)
  | none =>
    match getIPFSPathFromPath resolveVs rewriteVs pathReq with
    | .error e => .error e
    | .ok newPath =>
      match newPath with
      | some np => .ok (some (if np = "" then pathReq else np))
      | none => .ok (some pathReq)

/-- Observable outcome of one control-plane handler: HTTP status, the error
code in the JSON body (`none` for an empty success body), the final value of
`state.vhosts`, what was published to the durable record (`none` when
`publishVhosts` never ran), and whether a registry refresh was initiated. -/
structure ApiResult where
  status : Nat
  errorBody : Option String
  finalVhosts : Vhosts
  published : Option Vhosts
  didRefresh : Bool
deriving DecidableEq, Repr

/-- In the PUT and DELETE handlers (source lines 381 and 404) the source binds
`const vhost = getVhostByName(name);` WITHOUT `await`: the bound value is a
pending Promise object, which JS regards as truthy, so the `if (!vhost)`
not-found branch is unreachable on every input. -/
def unawaitedPromiseTruthy : Bool := true

/-- `getVhostByName` (source lines 304–313) after its internal refresh:
`null` unless the refreshed snapshot has a truthy CID for `name`. -/
def getVhostByName (refreshed : Vhosts) (name : String) : Option (String × String) :=
  match truthyLookup refreshed name with
  | none => none
  | some cid => some (name, cid)

/-- `app.post('/api/v1/vhosts')` (source lines 353–375).  `current` is the
snapshot when the request arrives, `refreshed` the mapping read back from the
durable record by `addVhost`'s refresh. -/
def postVhostHandler (current refreshed : Vhosts) (name cid : String) : ApiResult :=
  if name ∈ NAME_DENY_LIST then
    ⟨401, some "name_not_allowed", current, none, false⟩
  else if !isValidCID cid then
    ⟨400, some "invalid_cid", current, none, false⟩
  else
    let st := upsert refreshed name cid
    ⟨201, none, st, some st, true⟩

/-- `app.put('/api/v1/vhosts/:name')` (source lines 377–399).  The not-found
check tests the truthiness of an unawaited Promise and never fires; the
fire-and-forget `getVhostByName` call still initiates a refresh, so
`didRefresh` is true even on the invalid-CID rejection. -/
def putVhostHandler (current refreshed : Vhosts) (name cid : String) : ApiResult :=
  if !unawaitedPromiseTruthy then
    ⟨404, some "not_found", current, none, true⟩
  else if !isValidCID cid then
    ⟨400, some "invalid_cid", current, none, true⟩
  else
    let st := upsert refreshed name cid
    ⟨201, none, st, some st, true⟩

/-- `app.delete('/api/v1/vhosts/:name')` (source lines 401–415).  As in PUT,
the not-found check tests an unawaited Promise and never fires. -/
def deleteVhostHandler (current refreshed : Vhosts) (name : String) : ApiResult :=
  if !unawaitedPromiseTruthy then
    ⟨404, some "not_found", current, none, true⟩
  else
    let st := removeKey refreshed name
    ⟨200, none, st, some st, true⟩

/-- One control-plane write operation. -/
inductive COp where
  | create (name cid : String)
  | update (name cid : String)
  | del (name : String)
deriving DecidableEq, Repr

/-- The snapshot after one control-plane write in the single-instance model:
with no concurrent external writers the durable record holds exactly what this
process last published, so the refresh inside each mutation reads back the
current snapshot. -/
def applyOp (st : Vhosts) : COp → Vhosts
  | .create n c => (postVhostHandler st st n c).finalVhosts
  | .update n c => (putVhostHandler st st n c).finalVhosts
  | .del n => (deleteVhostHandler st st n).finalVhosts

/-- The snapshot after a sequence of control-plane writes. -/
def applyOps (st : Vhosts) (ops : List COp) : Vhosts :=
  ops.foldl applyOp st

/-! ## Shutdown -/

/-- The timer-related global functions that exist in the program's scope. -/
def definedTimerFns : List String :=
  ["setInterval", "clearInterval"]

/-- Process resources affected by `shutdown`. -/
structure ProcState where
  timerActive : Bool
  serverListening : Bool
  proxyOpen : Bool
deriving DecidableEq, Repr

/-- Calling a global function by name to cancel the refresh timer: a
`ReferenceError` is thrown if no such global exists. -/
def callClearTimer (fname : String) (st : ProcState) : Except String ProcState :=
  if fname ∈ definedTimerFns then .ok { st with timerActive := false }
  else .error ("ReferenceError: " ++ fname ++ " is not defined")

/-- `shutdown` (source lines 460–468): its first statement is
`clearInterva(refreshInterval);` — the identifier is misspelled
(`clearInterval` is the global that exists), so the lookup throws before the
server or the forwarder is closed. -/
def shutdown (st : ProcState) : Except String ProcState :=
  match callClearTimer "clearInterva" st with
  | .error e => .error e
  | .ok st' => .ok { st' with serverListening := false, proxyOpen := false }

/-! ## Characterization of path resolution for regex-literal keys -/

/-- The characters that have (or can begin) a special meaning when a vhost
name is interpolated into a RegExp pattern. -/
def regexMetaChars : List Char :=
  ['\\', '^', '$', '.', '|', '?', '*', '+', '(', ')', '[', ']', '{', '}']

/-- A vhost name every character of which the regular-expression engine
interprets literally. -/
def literalKey (k : String) : Bool :=
  k.data.all (fun c => decide (c ∉ regexMetaChars))

/-- The matching rule the specification states for path resolution: the path
equals `/<key>` or starts with `/<key>/` (stated over the character lists of
the strings). -/
def boundaryMatch (p k : String) : Bool :=
  (p.data == '/' :: k.data) || List.isPrefixOf ('/' :: k.data ++ ['/']) p.data

/-- The regular expression `<key>($|/)` denotes for a literal key: its
characters in sequence, ending in the alternation `($|/)`. -/
def litTail (w : List Char) : RE :=
  match w with
  | [] => .alt .endA (.char '/')
  | c :: rest => .seq (.char c) (litTail rest)

/-- Direct matching semantics of `litTail`: the characters of `w` appear at
`pos`, followed by end-of-input or a `/`. -/
def litTailOk (orig : List Char) (w : List Char) (pos : Nat) : Bool :=
  match w with
  | [] => decide (pos = orig.length) || (orig.get? pos == some '/')
  | c :: w' => (orig.get? pos == some c) && litTailOk orig w' (pos + 1)

theorem reParse_literal_step (c : Char) (hc : c ∉ regexMetaChars)
    (rest : List Char) (cur : PFrame) (stk : List PFrame) :
    reParse (c :: rest) .norm cur stk =
      reParse rest .norm { cur with seqR := .char c :: cur.seqR } stk := by
  have h1 : ¬(c = '(') := fun h => hc (by rw [h]; decide)
  have h2 : ¬(c = ')') := fun h => hc (by rw [h]; decide)
  have h3 : ¬(c = '|') := fun h => hc (by rw [h]; decide)
  have h4 : ¬(c = '*') := fun h => hc (by rw [h]; decide)
  have h5 : ¬(c = '+') := fun h => hc (by rw [h]; decide)
  have h6 : ¬(c = '?') := fun h => hc (by rw [h]; decide)
  have h7 : ¬(c = '.') := fun h => hc (by rw [h]; decide)
  have h8 : ¬(c = '^') := fun h => hc (by rw [h]; decide)
  have h9 : ¬(c = '$') := fun h => hc (by rw [h]; decide)
  have h10 : ¬(c = '\\') := fun h => hc (by rw [h]; decide)
  have h11 : ¬(c = '[') := fun h => hc (by rw [h]; decide)
  have h12 : ¬(c = '{') := fun h => hc (by rw [h]; decide)
  simp only [reParse]
  rw [if_neg h1, if_neg h2, if_neg h3, if_neg h4, if_neg h5, if_neg h6, if_neg h7,
    if_neg h8, if_neg h9, if_neg h10, if_neg h11, if_neg h12]

theorem reParse_literal_run (ks : List Char) (h : ∀ c ∈ ks, c ∉ regexMetaChars)
    (rest : List Char) (cur : PFrame) (stk : List PFrame) :
    reParse (ks ++ rest) .norm cur stk =
      reParse rest .norm { cur with seqR := (ks.map RE.char).reverse ++ cur.seqR } stk := by
  induction ks generalizing cur with
  | nil => simp
  | cons c ks ih =>
    rw [List.cons_append, reParse_literal_step c (h c (List.mem_cons_self c ks)) _ _ _,
      ih (fun d hd => h d (List.mem_cons_of_mem c hd)) _]
    simp [List.append_assoc]

theorem mkSeq_cons (a : RE) (l : List RE) (h : l ≠ []) :
    mkSeq (a :: l) = .seq a (mkSeq l) := by
  cases l with
  | nil => exact absurd rfl h
  | cons b t => rfl

theorem mkSeq_litTail (w : List Char) :
    mkSeq (w.map RE.char ++ [.alt .endA (.char '/')]) = litTail w := by
  induction w with
  | nil => rfl
  | cons c w ih =>
    rw [List.map_cons, List.cons_append, mkSeq_cons _ _ (by simp), ih]
    rfl

theorem compile_literal (k : String) (h : literalKey k = true) :
    compileRE (vhostRegexSrc k) =
      .ok (.seq .startA (.seq (.char '/') (litTail k.data))) := by
  have hmem : ∀ c ∈ k.data, c ∉ regexMetaChars := by
    intro c hc
    exact of_decide_eq_true (List.all_eq_true.mp h c hc)
  have hdata : (vhostRegexSrc k).data = '^' :: '/' :: (k.data ++ ['(', '$', '|', '/', ')']) := by
    show ("^/" ++ k ++ "($|/)").data = _
    rw [String.data_append, String.data_append]
    show (['^', '/'] ++ k.data) ++ ['(', '$', '|', '/', ')'] = _
    simp
  unfold compileRE
  rw [hdata]
  have s1 : reParse ('^' :: '/' :: (k.data ++ ['(', '$', '|', '/', ')'])) .norm ⟨[], [], .top⟩ [] =
      reParse (k.data ++ ['(', '$', '|', '/', ')']) .norm ⟨[], [.char '/', .startA], .top⟩ [] := rfl
  rw [s1, reParse_literal_run k.data hmem _ _ _]
  have s2 : ∀ f : PFrame, reParse ['(', '$', '|', '/', ')'] .norm f [] =
      .ok (frameRE ⟨f.alts, .alt .endA (.char '/') :: f.seqR, f.kind⟩) := fun f => rfl
  rw [s2]
  unfold frameRE
  dsimp only
  simp only [List.nil_append]
  have : (RE.alt .endA (.char '/') ::
      ((k.data.map RE.char).reverse ++ [.char '/', .startA])).reverse =
      .startA :: .char '/' :: (k.data.map RE.char ++ [.alt .endA (.char '/')]) := by
    simp
  rw [this]
  rw [mkSeq_cons _ _ (by simp), mkSeq_cons _ _ (by simp), mkSeq_litTail]
  rfl

theorem matchEnds_litTail (orig : List Char) :
    ∀ (w : List Char) (pos f : Nat), w.length + 1 ≤ f →
      (matchEnds orig f (litTail w) pos ≠ [] ↔ litTailOk orig w pos = true) := by
  intro w
  induction w with
  | nil =>
    intro pos f hf
    cases f with
    | zero => omega
    | succ f' =>
      show matchEnds orig (f' + 1) (.alt .endA (.char '/')) pos ≠ [] ↔ _
      simp only [matchEnds, litTailOk]
      cases hget : orig.get? pos with
      | none => by_cases hp : pos = orig.length <;> simp [hp, hget]
      | some x =>
        by_cases hp : pos = orig.length <;> by_cases hx : x = '/' <;>
          simp [hp, hget, hx]
  | cons c w' ih =>
    intro pos f hf
    cases f with
    | zero => omega
    | succ f' =>
      show matchEnds orig (f' + 1) (.seq (.char c) (litTail w')) pos ≠ [] ↔ _
      simp only [matchEnds, litTailOk]
      cases hget : orig.get? pos with
      | none => simp [hget]
      | some x =>
        by_cases hx : x = c
        · subst hx
          have hfw : w'.length + 1 ≤ f' := by simp at hf; omega
          simp [hget, ih (pos + 1) f' hfw]
        · simp [hget, hx]

theorem matchEnds_vhostRE (orig : List Char) (w : List Char) (i f : Nat)
    (hf : w.length + 3 ≤ f) :
    (matchEnds orig f (.seq .startA (.seq (.char '/') (litTail w))) i ≠ []) ↔
      (i = 0 ∧ orig.get? 0 = some '/' ∧ litTailOk orig w 1 = true) := by
  cases f with
  | zero => omega
  | succ f1 =>
    cases f1 with
    | zero => omega
    | succ f2 =>
      by_cases hi : i = 0
      · subst hi
        show ((matchEnds orig (f2 + 1) .startA 0).flatMap
          (matchEnds orig (f2 + 1) (.seq (.char '/') (litTail w)))) ≠ [] ↔ _
        have e1 : matchEnds orig (f2 + 1) .startA 0 = [0] := rfl
        rw [e1]
        simp only [List.flatMap_cons, List.flatMap_nil, List.append_nil]
        show ((matchEnds orig f2 (.char '/') 0).flatMap (matchEnds orig f2 (litTail w))) ≠ [] ↔ _
        cases hget : orig.get? 0 with
        | none =>
          have e2 : matchEnds orig f2 (.char '/') 0 = [] := by
            simp only [matchEnds]
            rw [hget]
          simp [e2, hget]
        | some x =>
          by_cases hx : x = '/'
          · subst hx
            have e2 : matchEnds orig f2 (.char '/') 0 = [1] := by
              simp only [matchEnds]
              rw [hget]
              simp
            rw [e2]
            simp only [List.flatMap_cons, List.flatMap_nil, List.append_nil]
            rw [matchEnds_litTail orig w 1 f2 (by omega)]
            simp [hget]
          · have e2 : matchEnds orig f2 (.char '/') 0 = [] := by
              simp only [matchEnds]
              rw [hget]
              simp [hx]
            simp [e2, hget, hx]
      · simp [matchEnds, hi]

/-- A lower bound on the size of the compiled literal-key pattern, ensuring
the canonical fuel suffices. -/
theorem reSize_litTail_ge (w : List Char) : w.length + 1 ≤ reSize (litTail w) := by
  induction w with
  | nil => simp [litTail, reSize]
  | cons c w ih =>
    simp only [litTail, reSize, List.length_cons]
    have : reSize (.char c) = 1 := rfl
    omega

theorem reTest_vhostRE (k p : String) :
    reTest (.seq .startA (.seq (.char '/') (litTail k.data))) p =
      ((p.data.get? 0 == some '/') && litTailOk p.data k.data 1) := by
  have hfuel : k.data.length + 3 ≤
      reFuel (.seq .startA (.seq (.char '/') (litTail k.data))) p.data.length := by
    have h1 := reSize_litTail_ge k.data
    have h2 : reSize (.seq .startA (.seq (.char '/') (litTail k.data))) =
        reSize (litTail k.data) + 4 := by
      simp only [reSize]
      have : reSize RE.startA = 1 := rfl
      have : reSize (RE.char '/') = 1 := rfl
      omega
    unfold reFuel
    rw [h2]
    nlinarith
  have hiff : (reTest (.seq .startA (.seq (.char '/') (litTail k.data))) p = true) ↔
      (((p.data.get? 0 == some '/') && litTailOk p.data k.data 1) = true) := by
    constructor
    · intro h
      unfold reTest at h
      rw [List.any_eq_true] at h
      obtain ⟨i, _, hne⟩ := h
      have hne2 : matchEnds p.data
          (reFuel (.seq .startA (.seq (.char '/') (litTail k.data))) p.data.length)
          (.seq .startA (.seq (.char '/') (litTail k.data))) i ≠ [] := by
        simpa using hne
      have h3 := (matchEnds_vhostRE p.data k.data i _ hfuel).mp hne2
      rw [Bool.and_eq_true, beq_iff_eq]
      exact ⟨h3.2.1, h3.2.2⟩
    · intro h
      rw [Bool.and_eq_true, beq_iff_eq] at h
      unfold reTest
      rw [List.any_eq_true]
      refine ⟨0, List.mem_range.mpr (by omega), ?_⟩
      have := (matchEnds_vhostRE p.data k.data 0 _ hfuel).mpr ⟨rfl, h.1, h.2⟩
      simpa using this
  rcases hRT : reTest (.seq .startA (.seq (.char '/') (litTail k.data))) p with _ | _ <;>
    rcases hRHS : ((p.data.get? 0 == some '/') && litTailOk p.data k.data 1) with _ | _
  · rfl
  · rw [hRT] at hiff
    rw [hRHS] at hiff
    exact absurd (hiff.mpr rfl) (by simp)
  · rw [hRT] at hiff
    rw [hRHS] at hiff
    exact absurd (hiff.mp rfl) (by simp)
  · rfl

theorem litTailOk_spec (orig : List Char) :
    ∀ (w : List Char) (pos : Nat), pos ≤ orig.length →
      (litTailOk orig w pos = true ↔
        (orig.drop pos = w ∨ List.isPrefixOf (w ++ ['/']) (orig.drop pos) = true)) := by
  intro w
  induction w with
  | nil =>
    intro pos hpos
    cases hd : orig.drop pos with
    | nil =>
      have hlen : orig.length ≤ pos := List.drop_eq_nil_iff.mp hd
      have hple : pos = orig.length := le_antisymm hpos hlen
      simp [litTailOk, hple, hd]
    | cons d t =>
      have hget : orig.get? pos = some d := by
        rw [List.get?_eq_getElem?]
        have := List.getElem?_drop orig pos 0
        rw [hd] at this
        simpa using this.symm
      have hlt : pos < orig.length := by
        rcases List.get?_eq_some.mp hget with ⟨h, _⟩
        exact h
      have hne : ¬(pos = orig.length) := by omega
      constructor
      · intro h
        simp only [litTailOk, Bool.or_eq_true, decide_eq_true_eq, beq_iff_eq] at h
        rcases h with h | h
        · exact absurd h hne
        · right
          rw [hget] at h
          obtain rfl : d = '/' := Option.some.inj h
          simp [List.isPrefixOf]
      · intro h
        simp only [litTailOk, Bool.or_eq_true, decide_eq_true_eq, beq_iff_eq]
        rcases h with h | h
        · exact absurd h (by simp)
        · simp only [List.nil_append, List.isPrefixOf, Bool.and_eq_true, beq_iff_eq] at h
          right
          rw [hget]
          exact congrArg some h.1.symm
  | cons c w' ih =>
    intro pos hpos
    cases hd : orig.drop pos with
    | nil =>
      have hget : orig.get? pos = none := by
        rw [List.get?_eq_getElem?]
        have := List.getElem?_drop orig pos 0
        rw [hd] at this
        simpa using this.symm
      constructor
      · intro h
        simp only [litTailOk, Bool.and_eq_true, beq_iff_eq] at h
        rw [hget] at h
        exact absurd h.1 (by simp)
      · intro h
        rcases h with h | h
        · exact absurd h (by simp)
        · simp [List.isPrefixOf] at h
    | cons d t =>
      have hget : orig.get? pos = some d := by
        rw [List.get?_eq_getElem?]
        have := List.getElem?_drop orig pos 0
        rw [hd] at this
        simpa using this.symm
      have hlt : pos < orig.length := by
        rcases List.get?_eq_some.mp hget with ⟨h, _⟩
        exact h
      have hdrop1 : orig.drop (pos + 1) = t := by
        have h1 := List.drop_drop 1 pos orig
        rw [hd] at h1
        simpa [Nat.add_comm] using h1.symm
      have hih := ih (pos + 1) (by omega)
      rw [hdrop1] at hih
      constructor
      · intro h
        simp only [litTailOk, Bool.and_eq_true, beq_iff_eq] at h
        have hdc : d = c := by
          rw [hget] at h
          exact Option.some.inj h.1
        subst hdc
        rcases hih.mp h.2 with h2 | h2
        · left
          rw [h2]
        · right
          simp only [List.cons_append, List.isPrefixOf, beq_self_eq_true, Bool.true_and]
          exact h2
      · intro h
        simp only [litTailOk, Bool.and_eq_true, beq_iff_eq]
        rcases h with h2 | h2
        · obtain ⟨rfl, rfl⟩ := List.cons.injEq d t c w' ▸ h2
          exact ⟨hget, hih.mpr (Or.inl rfl)⟩
        · simp only [List.cons_append, List.isPrefixOf, Bool.and_eq_true, beq_iff_eq] at h2
          rcases h2 with ⟨rfl, h3⟩
          exact ⟨hget, hih.mpr (Or.inr h3)⟩

theorem litTail_boundary (p k : String) :
    ((p.data.get? 0 == some '/') && litTailOk p.data k.data 1) = boundaryMatch p k := by
  unfold boundaryMatch
  cases hp : p.data with
  | nil => simp [List.isPrefixOf]
  | cons d t =>
    have hspec := litTailOk_spec (d :: t) k.data 1 (by simp)
    simp only [List.drop_succ_cons, List.drop_zero] at hspec
    rw [Bool.eq_iff_iff]
    simp only [Bool.and_eq_true, Bool.or_eq_true, beq_iff_eq, List.get?_cons_zero,
      Option.some.injEq, List.cons_append, List.isPrefixOf, List.cons.injEq]
    constructor
    · intro ⟨hd, hlit⟩
      subst hd
      rcases hspec.mp hlit with h2 | h2
      · exact Or.inl ⟨rfl, h2⟩
      · exact Or.inr ⟨rfl, h2⟩
    · intro h
      rcases h with ⟨hd, ht⟩ | ⟨hd, hpf⟩
      · subst hd
        exact ⟨rfl, hspec.mpr (Or.inl ht)⟩
      · subst hd
        exact ⟨rfl, hspec.mpr (Or.inr hpf)⟩

theorem findMatchingKey_literal (p : String) :
    ∀ (ks : List String), (∀ k ∈ ks, literalKey k = true) →
      findMatchingKey p ks = .ok (ks.find? (fun k => boundaryMatch p k)) := by
  intro ks
  induction ks with
  | nil => intro _; rfl
  | cons k ks ih =>
    intro h
    have hk := h k (List.mem_cons_self k ks)
    unfold findMatchingKey
    rw [compile_literal k hk]
    simp only []
    rw [reTest_vhostRE k p, litTail_boundary p k]
    by_cases hb : boundaryMatch p k
    · rw [if_pos hb, List.find?_cons_of_pos _ hb]
    · rw [if_neg (by simp [hb]), List.find?_cons_of_neg _ (by simp [hb])]
      exact ih (fun d hd => h d (List.mem_cons_of_mem k hd))

theorem findMatchingKey_ab :
    ∀ (ks : List String), findMatchingKey "/ab" ks ≠ .ok (some "a") := by
  intro ks
  induction ks with
  | nil => simp [findMatchingKey]
  | cons k ks ih =>
    by_cases hk : k = "a"
    · subst hk
      have step : findMatchingKey "/ab" ("a" :: ks) = findMatchingKey "/ab" ks := by
        conv_lhs => unfold findMatchingKey
        rw [compile_literal "a" (by decide)]
        dsimp only
        have : reTest (.seq .startA (.seq (.char '/') (litTail "a".data))) "/ab" = false := by
          decide
        rw [this]
        simp
      rw [step]
      exact ih
    · unfold findMatchingKey
      cases hc : compileRE (vhostRegexSrc k) with
      | error e => simp
      | ok re =>
        dsimp only
        by_cases hr : reTest re "/ab"
        · rw [if_pos hr]
          simp [hk]
        · rw [if_neg hr]
          exact ih

theorem mem_upsert (vs : Vhosts) (n c : String) (p : String × String)
    (h : p ∈ upsert vs n c) : p ∈ vs ∨ p = (n, c) := by
  unfold upsert at h
  by_cases hmem : n ∈ keysOf vs
  · rw [if_pos hmem] at h
    rcases List.mem_map.mp h with ⟨q, hq, heq⟩
    by_cases hqn : q.1 = n
    · rw [if_pos hqn] at heq
      exact Or.inr heq.symm
    · rw [if_neg hqn] at heq
      exact Or.inl (heq ▸ hq)
  · rw [if_neg hmem] at h
    rcases List.mem_append.mp h with h | h
    · exact Or.inl h
    · exact Or.inr (List.mem_singleton.mp h)

theorem mem_removeKey (vs : Vhosts) (n : String) (p : String × String)
    (h : p ∈ removeKey vs n) : p ∈ vs :=
  List.mem_of_mem_filter h

theorem lookup_some_mem (vs : Vhosts) (k w : String) (h : vs.lookup k = some w) :
    k ∈ keysOf vs := by
  induction vs with
  | nil => cases h
  | cons q vs ih =>
    obtain ⟨a, b⟩ := q
    simp only [List.lookup] at h
    by_cases hk : k = a
    · simp [keysOf, hk]
    · have hbeq : (k == a) = false := by simpa using hk
      simp only [hbeq] at h
      exact List.mem_cons_of_mem _ (ih h)

theorem mem_keysOf_of_truthyLookup (vs : Vhosts) (k v : String)
    (h : truthyLookup vs k = some v) : k ∈ keysOf vs := by
  unfold truthyLookup at h
  cases hl : vs.lookup k with
  | none => rw [hl] at h; cases h
  | some w => exact lookup_some_mem vs k w hl

theorem getCIDKeyFromHost_eq (vs : Vhosts) (host : String) :
    getCIDKeyFromHost vs host =
      (if isIP (jsSplitHead host ':') then none
       else if jsSplitHead (jsSplitHead host ':') '.' ∈ keysOf vs
         then some (jsSplitHead (jsSplitHead host ':') '.')
       else none) := rfl

/-- The CID-validity invariant over a snapshot: every stored value parses as
a CID. -/
def cidsValid (vs : Vhosts) : Prop :=
  ∀ p ∈ vs, isValidCID p.2 = true

theorem applyOp_preserves_cidsValid (st : Vhosts) (op : COp) (h : cidsValid st) :
    cidsValid (applyOp st op) := by
  cases op with
  | create n c =>
    show cidsValid (postVhostHandler st st n c).finalVhosts
    unfold postVhostHandler
    by_cases hdeny : n ∈ NAME_DENY_LIST
    · rw [if_pos hdeny]
      exact h
    · rw [if_neg hdeny]
      by_cases hv : isValidCID c
      · rw [if_neg (by simp [hv])]
        intro p hp
        rcases mem_upsert st n c p hp with hp | hp
        · exact h p hp
        · rw [hp]
          exact hv
      · rw [if_pos (by simp [hv])]
        exact h
  | update n c =>
    show cidsValid (putVhostHandler st st n c).finalVhosts
    unfold putVhostHandler
    rw [if_neg (by decide)]
    by_cases hv : isValidCID c
    · rw [if_neg (by simp [hv])]
      intro p hp
      rcases mem_upsert st n c p hp with hp | hp
      · exact h p hp
      · rw [hp]
        exact hv
    · rw [if_pos (by simp [hv])]
      exact h
  | del n =>
    show cidsValid (deleteVhostHandler st st n).finalVhosts
    unfold deleteVhostHandler
    rw [if_neg (by decide)]
    intro p hp
    exact h p (mem_removeKey st n p hp)

/-! ## The claims -/

/-- C1: the specification claims `delete(name)` answers 404 `not_found` for an
absent name without refreshing, removing or publishing.  In the source the
DELETE handler's existence check binds an unawaited Promise, which is always
truthy, so for *every* input — present or absent — the handler answers 200
with an empty body, refreshes, removes and publishes.  This theorem evaluates
the handler: the 404 branch is unreachable. -/
theorem c1_delete_always_succeeds (current refreshed : Vhosts) (name : String) :
    deleteVhostHandler current refreshed name =
      ⟨200, none, removeKey refreshed name, some (removeKey refreshed name), true⟩ := rfl

/-- C2 counterexample: the update handler applies *no* reserved-name check:
a PUT for the reserved name "api" with a valid CID answers 201 and upserts,
where the claim demands a "forbidden" rejection. -/
theorem c2_counterexample :
    "api" ∈ NAME_DENY_LIST ∧ isValidCID exampleCidV1 = true ∧
      putVhostHandler [] [] "api" exampleCidV1 =
        ⟨201, none, [("api", exampleCidV1)], some [("api", exampleCidV1)], true⟩ := by
  refine ⟨by decide, by decide, by decide⟩

/-- C2 (amended): update validates only the CID before upserting — an invalid
CID is rejected with 400 `invalid_cid` and nothing is published; any name
(reserved or not) with a valid CID is upserted and answered 201.  The
reserved-name check of create is absent, and the not-found check is
inoperative (it tests an unawaited Promise). -/
theorem c2_update_validates_cid_only (current refreshed : Vhosts) (name cid : String) :
    (isValidCID cid = false →
      putVhostHandler current refreshed name cid =
        ⟨400, some "invalid_cid", current, none, true⟩) ∧
    (isValidCID cid = true →
      putVhostHandler current refreshed name cid =
        ⟨201, none, upsert refreshed name cid, some (upsert refreshed name cid), true⟩) := by
  constructor
  · intro h
    unfold putVhostHandler
    rw [if_neg (by decide), if_pos (by simp [h])]
  · intro h
    unfold putVhostHandler
    rw [if_neg (by decide), if_neg (by simp [h])]

/-- Witness for C2's amended theorem at concrete inputs. -/
theorem c2_update_validates_cid_only_witness :
    putVhostHandler [("x", "y")] [] "hello" "nope" =
        ⟨400, some "invalid_cid", [("x", "y")], none, true⟩ ∧
      putVhostHandler [] [] "hello" exampleCidV1 =
        ⟨201, none, upsert [] "hello" exampleCidV1, some (upsert [] "hello" exampleCidV1), true⟩ :=
  ⟨(c2_update_validates_cid_only [("x", "y")] [] "hello" "nope").1 (by decide),
   (c2_update_validates_cid_only [] [] "hello" exampleCidV1).2 (by decide)⟩

/-- C3 counterexample: starting from the empty snapshot (no empty-name entry),
the control-plane create with the empty name and a valid CID is accepted —
the deny list does not contain the empty string — and the snapshot then
contains an entry with an empty name. -/
theorem c3_counterexample :
    applyOps [] [COp.create "" exampleCidV1] = [("", exampleCidV1)] ∧
      "" ∈ keysOf [("", exampleCidV1)] := by
  refine ⟨by decide, by decide⟩

/-- C3 (amended): the control plane preserves CID validity — starting from a
snapshot whose values are all valid CIDs, any sequence of create, update and
delete operations leaves only valid CIDs in the snapshot (create and update
validate the CID; delete only removes).  The empty-name half of the original
claim fails: create accepts the empty name, since the reserved-name list does
not contain it. -/
theorem c3_cid_validity_preserved (st : Vhosts) (ops : List COp) (h : cidsValid st) :
    cidsValid (applyOps st ops) := by
  induction ops generalizing st with
  | nil => exact h
  | cons op ops ih => exact ih (applyOp st op) (applyOp_preserves_cidsValid st op h)

/-- Witness for C3's amended theorem at concrete inputs. -/
theorem c3_cid_validity_preserved_witness :
    cidsValid (applyOps [("hello", exampleCidV1)]
      [COp.create "x" exampleCidV0, COp.del "hello", COp.update "x" exampleCidV1]) :=
  c3_cid_validity_preserved _ _ (by intro p hp; simp at hp; rw [hp]; decide)

/-- C5: the specification claims the shutdown routine cancels the refresh
timer without raising an error, then closes the server and the forwarder.
The source's `shutdown` calls the misspelled global `clearInterva`, so it
throws a ReferenceError on every invocation: the timer is never cancelled and
neither the server nor the forwarder is closed. -/
theorem c5_shutdown_reference_error (st : ProcState) :
    shutdown st = .error "ReferenceError: clearInterva is not defined" := rfl

/-- C8: subdomain canonicalization is idempotent, and a CID already in
version 1 and base32 encoding is returned unchanged. -/
theorem c8_canonicalization_idempotent (c : Cid) :
    toSubdomainSafe (toSubdomainSafe c) = toSubdomainSafe c ∧
      (c.version = 1 → c.multibaseName = "base32" → toSubdomainSafe c = c) := by
  constructor
  · by_cases h : c.version = 1 ∧ c.multibaseName = "base32"
    · have e : toSubdomainSafe c = c := by
        unfold toSubdomainSafe
        rw [if_pos h]
      rw [e]
      exact e
    · have e : toSubdomainSafe c = ⟨1, "base32", c.contentKey⟩ := by
        unfold toSubdomainSafe
        rw [if_neg h]
      rw [e]
      unfold toSubdomainSafe
      rw [if_pos ⟨rfl, rfl⟩]
  · intro h1 h2
    unfold toSubdomainSafe
    rw [if_pos ⟨h1, h2⟩]

/-- Witness for C8 at a concrete version-1 base32 CID. -/
theorem c8_canonicalization_idempotent_witness :
    toSubdomainSafe (toSubdomainSafe ⟨1, "base32", "afyexample"⟩) =
        toSubdomainSafe ⟨1, "base32", "afyexample"⟩ ∧
      toSubdomainSafe ⟨1, "base32", "afyexample"⟩ = ⟨1, "base32", "afyexample"⟩ :=
  ⟨(c8_canonicalization_idempotent _).1, (c8_canonicalization_idempotent _).2 rfl rfl⟩

/-- C9: a Host header whose hostname (before any port suffix) is an IP
literal never resolves to a vhost, whatever the snapshot. -/
theorem c9_ip_literal_no_resolve (vs : Vhosts) (host : String)
    (h : isIP (jsSplitHead host ':') = true) :
    getCIDKeyFromHost vs host = none := by
  rw [getCIDKeyFromHost_eq, if_pos h]

/-- Witness for C9 at the specification's example host. -/
theorem c9_ip_literal_no_resolve_witness :
    isIP (jsSplitHead "127.0.0.1:8080" ':') = true ∧
      getCIDKeyFromHost [("127", "c1"), ("hello", "c2")] "127.0.0.1:8080" = none :=
  ⟨by decide, c9_ip_literal_no_resolve _ _ (by decide)⟩

/-- C6: host-based resolution wins over path-based resolution.  For any
snapshot holding vhost `a` (with a truthy CID) and vhost `b`, a request with
Host `a.example.com` and path `/b/index.html` is rewritten from `a`'s entry
alone: with a subdomain-capable gateway the path is left untouched, otherwise
it becomes `/ipfs/<cidA>/b/index.html`; the path-based rewrite for `b` is
never consulted. -/
theorem c6_host_precedence (vs : Vhosts) (cidA : String) (subs : Bool)
    (ha : truthyLookup vs "a" = some cidA) (_hb : "b" ∈ keysOf vs) :
    proxyReqPathAfter vs vs "a.example.com" "/b/index.html" subs =
      .ok (some (if subs then "/b/index.html" else "/ipfs/" ++ cidA ++ "/b/index.html")) := by
  have hmem : "a" ∈ keysOf vs := mem_keysOf_of_truthyLookup vs "a" cidA ha
  have hhost : getCIDKeyFromHost vs "a.example.com" = some "a" := by
    rw [getCIDKeyFromHost_eq]
    have h2 : jsSplitHead (jsSplitHead "a.example.com" ':') '.' = "a" := by decide
    rw [h2, if_neg (by decide), if_pos hmem]
  unfold proxyReqPathAfter
  rw [hhost]
  dsimp only
  cases subs with
  | true => rw [if_pos rfl, if_pos rfl]
  | false =>
    rw [if_neg (by simp), if_neg (by simp)]
    unfold getIPFSPathFromCIDKey
    rw [ha]

/-- Witness for C6 at a concrete two-vhost snapshot. -/
theorem c6_host_precedence_witness :
    proxyReqPathAfter [("a", "cid1"), ("b", "cid2")] [("a", "cid1"), ("b", "cid2")]
        "a.example.com" "/b/index.html" false =
      .ok (some (if false then "/b/index.html" else "/ipfs/" ++ "cid1" ++ "/b/index.html")) :=
  c6_host_precedence [("a", "cid1"), ("b", "cid2")] "cid1" false (by decide) (by decide)

/-- C7 counterexample: the claimed rule "a path resolves to a name iff it
equals `/<name>` or starts with `/<name>/`" fails for names the regex engine
does not read literally: for the snapshot holding name `a+`, the path `/a+`
*equals* `/` ++ `a+` yet resolves to nothing, because the pattern `^/a+($|/)`
reads `a+` as "one or more `a`". -/
theorem c7_counterexample :
    getCIDKeyFromPath [("a+", "c1")] "/a+" = .ok none ∧ "/a+" = "/" ++ "a+" := by
  refine ⟨by decide, rfl⟩

/-- C7 (amended): the path `/ab` never resolves to vhost `a`; and restricted
to snapshots whose names contain no regex metacharacters, path resolution
returns exactly the first name `n` (in snapshot order) with path = `/<n>` or
path starting with `/<n>/` — never a mere prefix-substring match — collapsed
to none when that first name is the empty string (the source's truthiness
check on the found key).  Names containing metacharacters are matched under
regex semantics instead (see the counterexample). -/
theorem c7_path_boundary :
    (∀ vs : Vhosts, "a" ∈ keysOf vs → getCIDKeyFromPath vs "/ab" ≠ .ok (some "a")) ∧
    (∀ (vs : Vhosts) (p : String), (∀ k ∈ keysOf vs, literalKey k = true) →
      getCIDKeyFromPath vs p =
        .ok (collapseFalsyKey ((keysOf vs).find? (fun k => boundaryMatch p k)))) ∧
    (∀ p k : String, boundaryMatch p k = true ↔
      (p = "/" ++ k ∨ List.IsPrefix ("/" ++ k ++ "/").data p.data)) := by
  refine ⟨?_, ?_, ?_⟩
  · intro vs _ hcon
    unfold getCIDKeyFromPath at hcon
    cases hf : findMatchingKey "/ab" (keysOf vs) with
    | error e =>
      rw [hf] at hcon
      cases hcon
    | ok r =>
      rw [hf] at hcon
      have hr : collapseFalsyKey r = some "a" := Except.ok.inj hcon
      have hra : r = some "a" := by
        cases r with
        | none => simp [collapseFalsyKey] at hr
        | some k =>
          simp only [collapseFalsyKey] at hr
          by_cases hk : k = ""
          · rw [if_pos hk] at hr
            cases hr
          · rw [if_neg hk] at hr
            exact hr
      exact findMatchingKey_ab (keysOf vs) (hra ▸ hf)
  · intro vs p h
    unfold getCIDKeyFromPath
    rw [findMatchingKey_literal p (keysOf vs) h]
  · intro p k
    unfold boundaryMatch
    have hd1 : ("/" ++ k).data = '/' :: k.data := by
      rw [String.data_append]
      rfl
    have hd2 : ("/" ++ k ++ "/").data = '/' :: k.data ++ ['/'] := by
      rw [String.data_append, String.data_append]
      rfl
    rw [hd2]
    simp only [Bool.or_eq_true, beq_iff_eq, List.isPrefixOf_iff_prefix]
    constructor
    · intro h
      rcases h with h | h
      · left
        rw [String.ext_iff, hd1]
        exact h
      · right
        exact h
    · intro h
      rcases h with h | h
      · left
        rw [String.ext_iff, hd1] at h
        exact h
      · right
        exact h

/-- Witness for C7's amended theorem at concrete inputs. -/
theorem c7_path_boundary_witness :
    getCIDKeyFromPath [("a", "c0"), ("ab", "c1")] "/ab" ≠ .ok (some "a") ∧
      getCIDKeyFromPath [("hello", "c9"), ("doc", "c2")] "/doc/x" =
        .ok (collapseFalsyKey ((keysOf [("hello", "c9"), ("doc", "c2")]).find?
          (fun k => boundaryMatch "/doc/x" k))) ∧
      (boundaryMatch "/doc/x" "doc" = true ↔
        ("/doc/x" = "/" ++ "doc" ∨ List.IsPrefix ("/" ++ "doc" ++ "/").data "/doc/x".data)) :=
  ⟨c7_path_boundary.1 [("a", "c0"), ("ab", "c1")] (by decide),
   c7_path_boundary.2.1 [("hello", "c9"), ("doc", "c2")] "/doc/x" (by decide),
   c7_path_boundary.2.2 "/doc/x" "doc"⟩

